import Mathlib

/-!
Verification of the content deduplication and LLM-ranking pipeline of the
mortgagenews-ai repository.

The development shallowly embeds:
* the data model of `src/models/article.py` (`ContentItem`; the `Category`
  enum is referenced throughout `src` but absent from `article.py`, so it is
  modelled from the spec);
* the stdlib similarity metric `difflib.SequenceMatcher(None, a, b).ratio()`
  exactly as CPython implements it for `isjunk=None` (dict-based longest
  match, autojunk purge for `len(b) >= 200`, block recursion); floats are
  modelled as rationals;
* `src/utils/dedup.py` (`deduplicate_items`);
* `src/services/llm.py` (`_prepare_content`, `_parse_response`,
  `analyze_and_rank`).  `json.loads` is an external stdlib call and is
  modelled as an explicit function parameter `loads` returning
  `Except String JValue`; the HTTP call `_call_api` is modelled by an
  `Except String String` argument (`.error` = transport error / non-2xx /
  malformed completion envelope, all of which surface as exceptions in the
  source).  Python's in-place mutation of the shared `items` list is
  modelled by threading an explicit store (`List ContentItem`) and by
  representing the `ranked_items` aliases as indices that are read back from
  the final store, which reproduces the aliasing behaviour of the source.
-/

namespace MortgageNews

/-- Enum `SourceType` from `src/models/article.py`. -/
inductive SourceType where
  | NEWS_API
  | RSS
  | GITHUB
deriving DecidableEq, Repr

/-- Modelled from the spec: the `Category` enum `{WORKFLOW, LEADS, FILES}`
(§3) is imported from `src.models.article` by `llm.py`, `email.py` and
`pushbullet.py` but its definition is missing from `article.py` in `src/`. -/
inductive Category where
  | WORKFLOW
  | LEADS
  | FILES
deriving DecidableEq, Repr

/-- Structure `ContentItem` from `src/models/article.py`.  `published_at` (a datetime)
is abstracted to an integer timestamp.  The `category` attribute is set
dynamically on instances by `llm.py` / read by the delivery services, so it
appears here as an optional field, initially `none`. -/
structure ContentItem where
  title : String
  url : String
  source : String
  source_type : SourceType
  published_at : Int
  description : Option String := none
  summary : Option String := none
  relevance_score : ℚ := 0
  category : Option Category := none
deriving DecidableEq, Repr

/-- Placeholder item used only to totalise list indexing at positions that
are proved in range. -/
def dummyItem : ContentItem :=
  { title := "", url := "", source := "", source_type := SourceType.RSS,
    published_at := 0 }

/-! ### difflib.SequenceMatcher (stdlib dependency of `dedup.py`)

`deduplicate_items` calls `SequenceMatcher(None, a, b).ratio()`.  What
follows is a direct embedding of CPython's `difflib` specialised to
`isjunk=None` (hence `bjunk` is empty and the junk-extension loops of
`find_longest_match` never fire). -/

/-- Positions of `c` in `b`, ascending: the `b2j` table built by
`SequenceMatcher.__chain_b` before the autojunk purge. -/
def b2jRaw (b : List Char) (c : Char) : List Nat :=
  (List.range b.length).filter fun j => b.get? j == some c

/-- Table `b2j` after the autojunk purge: when `len(b) >= 200`, characters with
more than `len(b) // 100 + 1` occurrences are dropped from the table. -/
def b2jMap (b : List Char) (c : Char) : List Nat :=
  let idxs := b2jRaw b c
  if b.length ≥ 200 ∧ idxs.length > b.length / 100 + 1 then [] else idxs

/-- Comparison `a[i] == b[j]`, with out-of-range positions never equal. -/
def chEq (a b : List Char) (i j : Nat) : Bool :=
  match a.get? i, b.get? j with
  | some ca, some cb => ca == cb
  | _, _ => false

/-- Inner loop of `find_longest_match` for one `i`: walk the candidate `j`s
(ascending), extend chains recorded in `j2len` (an association list from the
previous `i`), build `newj2len`, and update the best block on strict
improvement (`k > bestsize`). -/
def flmInner (j2len : List (Nat × Nat)) (i : Nat) :
    List Nat → List (Nat × Nat) → Nat × Nat × Nat → List (Nat × Nat) × (Nat × Nat × Nat)
  | [], newj2len, best => (newj2len, best)
  | j :: js, newj2len, best =>
    let prev := if j = 0 then 0 else (j2len.lookup (j - 1)).getD 0
    let k := prev + 1
    let best' := if k > best.2.2 then (i + 1 - k, j + 1 - k, k) else best
    flmInner j2len i js ((j, k) :: newj2len) best'

/-- Outer loop of `find_longest_match` over `i` in `range(alo, ahi)`.  The
Python loop skips `j < blo` and breaks at `j >= bhi`; on the ascending
candidate list this is the filter below. -/
def flmOuter (a : List Char) (b2j : Char → List Nat) (blo bhi : Nat) :
    List Nat → List (Nat × Nat) → Nat × Nat × Nat → Nat × Nat × Nat
  | [], _, best => best
  | i :: is, j2len, best =>
    let js := (b2j (a.getD i ' ')).filter fun j => decide (blo ≤ j) && decide (j < bhi)
    let (newj2len, best') := flmInner j2len i js [] best
    flmOuter a b2j blo bhi is newj2len best'

/-- Left extension loop of `find_longest_match` (`isjunk=None`, so only the
non-junk variant can fire); fuel bounds the number of decrements. -/
def extLeft (a b : List Char) (alo blo : Nat) :
    Nat → Nat × Nat × Nat → Nat × Nat × Nat
  | 0, best => best
  | fuel + 1, (besti, bestj, size) =>
    if alo < besti ∧ blo < bestj ∧ chEq a b (besti - 1) (bestj - 1) = true then
      extLeft a b alo blo fuel (besti - 1, bestj - 1, size + 1)
    else (besti, bestj, size)

/-- Right extension loop of `find_longest_match`; fuel bounds the number of
increments. -/
def extRight (a b : List Char) (ahi bhi besti bestj : Nat) :
    Nat → Nat → Nat
  | 0, size => size
  | fuel + 1, size =>
    if besti + size < ahi ∧ bestj + size < bhi ∧ chEq a b (besti + size) (bestj + size) = true then
      extRight a b ahi bhi besti bestj fuel (size + 1)
    else size

/-- Method `SequenceMatcher.find_longest_match(alo, ahi, blo, bhi)` with
`isjunk=None`: returns `(besti, bestj, bestsize)`. -/
def flm (a b : List Char) (b2j : Char → List Nat) (alo ahi blo bhi : Nat) :
    Nat × Nat × Nat :=
  let best1 := flmOuter a b2j blo bhi (List.range' alo (ahi - alo)) [] (alo, blo, 0)
  let best2 := extLeft a b alo blo best1.1 best1
  let size3 := extRight a b ahi bhi best2.1 best2.2.1 ahi best2.2.2
  (best2.1, best2.2.1, size3)

/-- Sum of matching-block sizes produced by `get_matching_blocks`'s queue
recursion on a window.  A window with an empty side yields a zero-size match
and stops, so recursing on both sub-windows unconditionally agrees with the
Python guard; the `a`-window shrinks strictly whenever `k > 0`, so fuel
`len(a) + 1` is never exhausted on the windows actually reached. -/
def matchesIn (a b : List Char) (b2j : Char → List Nat) :
    Nat → Nat → Nat → Nat → Nat → Nat
  | 0, _, _, _, _ => 0
  | fuel + 1, alo, ahi, blo, bhi =>
    let r := flm a b b2j alo ahi blo bhi
    if r.2.2 = 0 then 0
    else
      r.2.2 + matchesIn a b b2j fuel alo r.1 blo r.2.1 +
        matchesIn a b b2j fuel (r.1 + r.2.2) ahi (r.2.1 + r.2.2) bhi

/-- Total number of matched characters between `a` and `b`. -/
def matchesTotal (a b : List Char) : Nat :=
  matchesIn a b (b2jMap b) (a.length + 1) 0 a.length 0 b.length

/-- Ratio `SequenceMatcher(None, a, b).ratio()`: `2*M/T`, and `1.0` when both
sequences are empty.  Floats are modelled as rationals; the quotient is
written with `mkRat` (core `Rat` division is irreducible for the kernel),
and `ratioQ_eq_div` below checks it is the ordinary quotient. -/
def ratioQ (a b : List Char) : ℚ :=
  if a.length + b.length = 0 then 1
  else mkRat (2 * matchesTotal a b) (a.length + b.length)

/-- Python `str.lower()` as a character map (the titles involved are
ordinary text; `Char.toLower` agrees with CPython on ASCII). -/
def lowerChars (s : String) : List Char :=
  s.data.map Char.toLower

/-! ### `src/utils/dedup.py` -/

/-- The inner similarity scan of `deduplicate_items`: Python breaks at the
first accepted title with ratio above `0.8`, which is `List.any`.  The
candidate title is the `a` argument and the previously seen title the `b`
argument, as at the call site. -/
def isDuplicateTitle (title : String) (seenTitles : List String) : Bool :=
  seenTitles.any fun seen => decide (mkRat 4 5 < ratioQ (lowerChars title) (lowerChars seen))

/-- The loop of `deduplicate_items`, with the accumulated `seen_urls` set
(membership only) and `seen_titles` list made explicit. -/
def dedupAux : List String → List String → List ContentItem → List ContentItem
  | _, _, [] => []
  | seenUrls, seenTitles, item :: rest =>
    if item.url ∈ seenUrls then dedupAux seenUrls seenTitles rest
    else if isDuplicateTitle item.title seenTitles then dedupAux seenUrls seenTitles rest
    else item :: dedupAux (item.url :: seenUrls) (seenTitles ++ [item.title]) rest

/-- Function `deduplicate_items` from `src/utils/dedup.py`. -/
def deduplicate_items (items : List ContentItem) : List ContentItem :=
  dedupAux [] [] items

/-! ### JSON values

The shape of what Python's `json.loads` can return.  Numbers are modelled as
rationals (ints and floats together); objects as association lists
(`json.loads` keeps the last duplicate key, so lookup by first occurrence is
faithful for its output). -/

/-- A parsed JSON value. -/
inductive JValue where
  | null
  | bool (b : Bool)
  | num (q : ℚ)
  | str (s : String)
  | arr (xs : List JValue)
  | obj (fields : List (String × JValue))

/-! ### `src/services/llm.py` -/

/-- Prefix test on character lists. -/
def startsCh : List Char → List Char → Bool
  | _, [] => true
  | [], _ :: _ => false
  | c :: cs, p :: ps => c == p && startsCh cs ps

/-- Fuel-driven scan behind `pySplit`; at each step either one character of
the input is consumed or a (non-empty) separator match is removed, so fuel
`length + 1` is never exhausted. -/
def splitChAux (sep : List Char) : Nat → List Char → List Char → List (List Char)
  | _, acc, [] => [acc.reverse]
  | 0, acc, rest => [acc.reverse ++ rest]
  | fuel + 1, acc, c :: cs =>
    if startsCh (c :: cs) sep then
      acc.reverse :: splitChAux sep fuel [] ((c :: cs).drop sep.length)
    else splitChAux sep fuel (c :: acc) cs

/-- Python's `str.split(sep)` for a non-empty separator: every
non-overlapping occurrence splits, empty parts are kept.  (The source only
splits on the literal fences, never on an empty separator.) -/
def pySplit (s sep : String) : List String :=
  if sep.data = [] then [s]
  else (splitChAux sep.data (s.data.length + 1) [] s.data).map fun l => ⟨l⟩

/-- Python's `str.strip()` with no argument: drop leading and trailing
whitespace. -/
def pyStrip (s : String) : String :=
  ⟨((s.data.dropWhile Char.isWhitespace).reverse.dropWhile Char.isWhitespace).reverse⟩

/-- The code-fence stripping of `_parse_response`: Python's
`sep in s` / `s.split(sep)[i]` pair, with `in` equivalent to the split
having at least two parts. -/
def stripFences (response : String) : String :=
  if (pySplit response "```json").length ≥ 2 then
    (pySplit ((pySplit response "```json").getD 1 "") "```").getD 0 ""
  else if (pySplit response "```").length ≥ 2 then
    (pySplit ((pySplit response "```").getD 1 "") "```").getD 0 ""
  else response

/-- A JSON value used as a Python number: `bool` is an `int` subclass, so
`True - 1 == 0`; anything else raises in arithmetic/indexing contexts. -/
def toNumber : JValue → Option ℚ
  | .num q => some q
  | .bool b => some (if b then 1 else 0)
  | _ => none

/-- Python `str.lower()` on a whole string. -/
def lowerStr (s : String) : String :=
  ⟨s.data.map Char.toLower⟩

/-- Lookup `category_map.get(cat_str, Category.WORKFLOW)` from `_parse_response`. -/
def categoryMap (s : String) : Category :=
  if s = "workflow" then Category.WORKFLOW
  else if s = "leads" then Category.LEADS
  else if s = "files" then Category.FILES
  else Category.WORKFLOW

/-- Value `ranked.get("summary", item.description)` assigned to the `summary`
field: absent falls back to the item's description, a string is stored, JSON
`null` stores Python `None`.  A present non-string value would be stored
untyped by Python; the typed embedding signals it as an error, which no
verified property depends on (such a value can only arise from a response
outside every hypothesis used below, and the surrounding `except` turns any
signal into the same first-6 fallback). -/
def summaryVal (f : List (String × JValue)) (item : ContentItem) :
    Except Unit (Option String) :=
  match f.lookup "summary" with
  | none => .ok item.description
  | some (.str s) => .ok (some s)
  | some .null => .ok none
  | some _ => .error ()

/-- Value `ranked.get("relevance_score", 0.5)` assigned to the float field
`relevance_score`; same narrowing remark as for `summaryVal`. -/
def scoreVal (f : List (String × JValue)) : Except Unit ℚ :=
  match f.lookup "relevance_score" with
  | none => .ok (mkRat 1 2)
  | some v =>
    match toNumber v with
    | some q => .ok q
    | none => .error ()

/-- Value `ranked.get("category", "workflow").lower()` mapped through
`category_map`: a present non-string genuinely raises `AttributeError` on
`.lower()` in the source. -/
def catVal (f : List (String × JValue)) : Except Unit Category :=
  match f.lookup "category" with
  | none => .ok Category.WORKFLOW
  | some (.str s) => .ok (categoryMap (lowerStr s))
  | some _ => .error ()

/-- One iteration of the `for ranked in data.get("ranked_items", [])` loop
of `_parse_response`, acting on the shared `items` store.  `.error st`
models an exception escaping to the enclosing `except` with the store as
mutated so far (assignments already executed persist); `.ok (st, some idx)`
models a completed iteration that appended the alias of slot `idx` to
`ranked_items`; `.ok (st, none)` the silent skip of an out-of-range index.
A fractional in-range index raises `TypeError` at `items[idx]` after the
range test, before any assignment.  `idx = ranked["index"] - 1` is written
with `mkRat` so the kernel can evaluate it; `mkRat_sub_one` below checks it
is the ordinary `q - 1`. -/
def processEntry (store : List ContentItem) :
    JValue → Except (List ContentItem) (List ContentItem × Option Nat)
  | .obj f =>
    match (f.lookup "index").bind toNumber with
    | none => .error store
    | some q =>
      let idxq : ℚ := mkRat (q.num - q.den) q.den
      if 0 ≤ idxq ∧ idxq < (store.length : ℚ) then
        if idxq.den = 1 then
          let idx := idxq.num.toNat
          let item := store.getD idx dummyItem
          match summaryVal f item with
          | .error _ => .error store
          | .ok s1 =>
            let store1 := store.set idx { item with summary := s1 }
            match scoreVal f with
            | .error _ => .error store1
            | .ok sc =>
              let store2 := store1.set idx { item with summary := s1, relevance_score := sc }
              match catVal f with
              | .error _ => .error store2
              | .ok c =>
                .ok (store2.set idx
                      { item with summary := s1, relevance_score := sc, category := some c },
                    some idx)
        else .error store
      else .ok (store, none)
  | _ => .error store

/-- The whole `ranked_items` loop: entries in order, store threaded through,
first exception aborts with the store as mutated so far, the appended slot
indices are collected in order. -/
def processEntries (store : List ContentItem) :
    List JValue → Except (List ContentItem) (List ContentItem × List Nat)
  | [] => .ok (store, [])
  | e :: rest =>
    match processEntry store e with
    | .error st => .error st
    | .ok (st, oidx) =>
      match processEntries st rest with
      | .error st' => .error st'
      | .ok (st', idxs) => .ok (st', oidx.toList ++ idxs)

/-- Python iteration of `data.get("ranked_items", [])`: a list iterates its
elements; an empty string or empty dict iterates nothing (so the loop
completes with no entries); any other non-list (non-empty string — its first
character is a string whose subscription by `"index"` raises; non-empty dict
— its first key likewise; number/bool/null — not iterable) raises before any
assignment executes. -/
def iterEntries : JValue → Option (List JValue)
  | .arr xs => some xs
  | .str s => if s = "" then some [] else none
  | .obj [] => some []
  | .obj (_ :: _) => none
  | _ => none

/-- Method `_parse_response` from `src/services/llm.py`.  `loads` stands for
`json.loads` (`.error` = `json.JSONDecodeError`).  Every `except` path
returns the first six items of the store as mutated so far with an empty
`tldr`; the success path reads the `ranked_items` aliases back from the
final store, reproducing Python's in-place mutation of shared objects. -/
def parse_response (loads : String → Except String JValue) (response : String)
    (items : List ContentItem) : List ContentItem × JValue :=
  match loads (pyStrip (stripFences response)) with
  | .error _ => (items.take 6, .arr [])
  | .ok data =>
    match data with
    | .obj fields =>
      let tldr := ((fields.lookup "tldr").getD (.arr []))
      match iterEntries ((fields.lookup "ranked_items").getD (.arr [])) with
      | none => (items.take 6, .arr [])
      | some entries =>
        match processEntries items entries with
        | .error st => (st.take 6, .arr [])
        | .ok (st, idxs) => (idxs.map fun i => st.getD i dummyItem, tldr)
    | _ => (items.take 6, .arr [])

/-- Expression `item.description[:200] if item.description else "No description
available."` — a `None` or empty description is falsy. -/
def fallbackSummary : Option String → String
  | some d => if d = "" then "No description available." else d.take 200
  | none => "No description available."

/-- The body of the `for item in items[:6]` fallback loop of
`analyze_and_rank`: a falsy (`None` or empty) summary is filled by
`fallbackSummary`, and the category is set to WORKFLOW unconditionally. -/
def fallbackItem (item : ContentItem) : ContentItem :=
  let item1 :=
    if item.summary.getD "" = "" then
      { item with summary := some (fallbackSummary item.description) }
    else item
  { item1 with category := some Category.WORKFLOW }

/-- Method `analyze_and_rank` from `src/services/llm.py`.  `callResult` stands for
`await self._call_api(prompt)` (`.error` = transport error, non-2xx status,
or a malformed completion envelope — each raises inside `_call_api`).
`_parse_response` catches all of its own exceptions, so the `except` branch
of `analyze_and_rank` runs exactly when the call fails. -/
def analyze_and_rank (loads : String → Except String JValue)
    (callResult : Except String String) (items : List ContentItem) :
    List ContentItem × JValue :=
  if items.isEmpty then ([], .arr [])
  else
    match callResult with
    | .ok response =>
      let r := parse_response loads response items
      (r.1.take 6, r.2)
    | .error _ =>
      ((items.take 6).map fallbackItem,
        .arr [.str "Check the full list for details."])

/-- The per-item block of `_prepare_content` (1-based index `i`). -/
def itemLines (i : Nat) (item : ContentItem) : List String :=
  ["[" ++ toString i ++ "] " ++ item.title,
   "    Source: " ++ item.source,
   "    Description: " ++ (match item.description with
     | some d => if d = "" then "N/A" else d.take 300
     | none => "N/A"),
   "    URL: " ++ item.url,
   ""]

/-- Method `_prepare_content` from `src/services/llm.py`: serializes the first 20
items, 1-based `enumerate`. -/
def prepare_content (items : List ContentItem) : String :=
  String.intercalate "\n"
    (((items.take 20).enum).flatMap fun p => itemLines (p.1 + 1) p.2)

/-! ### Spec-side definitions

Declarative restatements of the spec's contracts (§3, §4.3), used to
compare against the embedded source functions. -/

/-- Two items agree on every collector-provided field — the ranking stage
may only touch the annotation fields `summary`, `relevance_score`,
`category` (spec §3: ranking "only selects and annotates"). -/
def sameIdentity (a b : ContentItem) : Prop :=
  a.title = b.title ∧ a.url = b.url ∧ a.source = b.source ∧
    a.source_type = b.source_type ∧ a.published_at = b.published_at ∧
    a.description = b.description

instance : ∀ a b : ContentItem, Decidable (sameIdentity a b) := fun _ _ =>
  instDecidableAnd

/-- The 0-based index a `ranked_items` entry refers to:
`ranked["index"] - 1`. -/
def idxVal (f : List (String × JValue)) : Option ℚ :=
  ((f.lookup "index").bind toNumber).map fun q => mkRat (q.num - q.den) q.den

/-- The slot an entry annotates: its object fields paired with the 0-based
index, provided that index is an integer in range (spec §4.3: out-of-range
indices are skipped). -/
def entrySlot (n : Nat) : JValue → Option (Nat × List (String × JValue))
  | .obj f =>
    match idxVal f with
    | some q =>
      if 0 ≤ q ∧ q < (n : ℚ) ∧ q.den = 1 then some (q.num.toNat, f) else none
    | none => none
  | _ => none

/-- The `summary` field, when present, is a string or `null`. -/
def wfSummaryB (f : List (String × JValue)) : Bool :=
  match f.lookup "summary" with
  | none => true
  | some (.str _) => true
  | some .null => true
  | some _ => false

/-- The `relevance_score` field, when present, is numeric. -/
def wfScoreB (f : List (String × JValue)) : Bool :=
  match f.lookup "relevance_score" with
  | none => true
  | some v => (toNumber v).isSome

/-- The `category` field, when present, is a string. -/
def wfCatB (f : List (String × JValue)) : Bool :=
  match f.lookup "category" with
  | none => true
  | some (.str _) => true
  | some _ => false

/-- A well-formed `ranked_items` entry: an object whose `index` is an
integer number and whose optional fields have the schema's types
(spec §4.2/§9: every field optional, explicit defaults). -/
def entryWF : JValue → Bool
  | .obj f =>
    (match idxVal f with
     | some q => q.den == 1
     | none => false) && (wfSummaryB f && (wfScoreB f && wfCatB f))
  | _ => false

/-- Spec §4.3, the net annotation one entry applies to its item: `summary`
defaults to the item's original description, `relevance_score` to `0.5`,
and the category string is lowercased and mapped with default WORKFLOW.
(The fall-through values for ill-typed fields are irrelevant: every use is
guarded by `entryWF`.) -/
def specAnnotate (item : ContentItem) (f : List (String × JValue)) : ContentItem :=
  { item with
    summary := match f.lookup "summary" with
      | none => item.description
      | some (.str s) => some s
      | some .null => none
      | some _ => item.summary
    relevance_score := match f.lookup "relevance_score" with
      | none => mkRat 1 2
      | some v => (toNumber v).getD item.relevance_score
    category := some (match f.lookup "category" with
      | none => Category.WORKFLOW
      | some (.str s) => categoryMap (lowerStr s)
      | some _ => Category.WORKFLOW) }

/-- Both stores hold identity-equal items position by position (spec §3's
"in place" mutation touches only annotation fields). -/
def storeSame (old new : List ContentItem) : Prop :=
  old.length = new.length ∧
    ∀ k, sameIdentity (new.getD k dummyItem) (old.getD k dummyItem)

/-! ### Concrete sample data (used by the closed evaluation theorems) -/

/-- A sample collected item (spec §8's scenario item). -/
def sItemA : ContentItem :=
  { title := "Loan AI Launch", url := "https://a/1", source := "TechNews",
    source_type := SourceType.NEWS_API, published_at := 0,
    description := some "X" }

/-- A second sample item, near-duplicate title, different URL. -/
def sItemB : ContentItem :=
  { title := "loan ai launch!", url := "https://a/1-dup", source := "RSS Feed",
    source_type := SourceType.RSS, published_at := 1,
    description := some "Y" }

/-- A third sample item with an unrelated title. -/
def sItemC : ContentItem :=
  { title := "Zoning news", url := "https://c/3", source := "RSS Feed",
    source_type := SourceType.RSS, published_at := 2,
    description := some "Z" }

/-- Stub `loads` returning a fixed parsed value. -/
def loadsConst (v : JValue) : String → Except String JValue := fun _ => .ok v

/-- Stub `loads` that always fails, as on unparseable text. -/
def loadsFail : String → Except String JValue := fun _ => .error "Expecting value"

/-- A schema-conforming `ranked_items` entry (spec §8's scenario: index 2,
category leads, two-sentence summary, score 0.9). -/
def entryA : List (String × JValue) :=
  [("index", .num 2), ("category", .str "leads"),
   ("summary", .str "S1. S2."), ("relevance_score", .num (mkRat 9 10))]

/-- A full well-formed model response object. -/
def fieldsA : List (String × JValue) :=
  [("tldr", .arr [.str "A", .str "B", .str "C"]),
   ("ranked_items", .arr [.obj entryA])]

/-- A response whose single entry carries no `category`. -/
def fieldsNoCat : List (String × JValue) :=
  [("ranked_items", .arr [.obj [("index", .num 1)]])]

/-- An entry addressing position 21 (0-based 20), past the 20-item prompt
cap. -/
def entryLate : List (String × JValue) :=
  [("index", .num 21), ("summary", .str "late")]

/-- A response addressing only position 21. -/
def fieldsLate : List (String × JValue) :=
  [("ranked_items", .arr [.obj entryLate])]

/-- Twenty-one items: the 21st (`sItemC`) lies beyond the prompt cap. -/
def items21 : List ContentItem :=
  List.replicate 20 sItemA ++ [sItemC]

/-- A good entry followed by a non-object entry (which raises `TypeError`
at `ranked["index"]` in the source). -/
def fieldsPartial : List (String × JValue) :=
  [("ranked_items", .arr
    [.obj [("index", .num 1), ("summary", .str "S1"), ("category", .str "leads")],
     .null])]

/-- First duplicate-index entry. -/
def entryDup1 : List (String × JValue) :=
  [("index", .num 1), ("summary", .str "first"), ("relevance_score", .num (mkRat 1 10))]

/-- Second duplicate-index entry — same index, different values. -/
def entryDup2 : List (String × JValue) :=
  [("index", .num 1), ("summary", .str "second"),
   ("relevance_score", .num (mkRat 9 10)), ("category", .str "files")]

/-- A response listing the same index twice. -/
def fieldsDup : List (String × JValue) :=
  [("tldr", .arr [.str "T"]),
   ("ranked_items", .arr [.obj entryDup1, .obj entryDup2])]

/-! ## Sanity lemmas for the kernel-evaluable arithmetic -/

/-- Value `mkRat (q.num - q.den) q.den` is the ordinary `q - 1` used at
`idx = ranked["index"] - 1`. -/
theorem mkRat_sub_one (q : ℚ) : mkRat (q.num - q.den) q.den = q - 1 := by
  rw [Rat.mkRat_eq_div]
  push_cast
  rw [sub_div, Rat.num_div_den, div_self (by exact_mod_cast q.den_nz)]

/-- Function `ratioQ` is the ordinary quotient `2*M/T` when a character is present. -/
theorem ratioQ_eq_div (a b : List Char) (h : a.length + b.length ≠ 0) :
    ratioQ a b = (2 * matchesTotal a b : ℚ) / ((a.length : ℚ) + (b.length : ℚ)) := by
  rw [ratioQ, if_neg h, Rat.mkRat_eq_div]
  push_cast
  ring_nf

/-! ## Deduplication -/

/-- The similarity scan over a concatenation of seen-title lists. -/
theorem isDuplicateTitle_append (t : String) (l₁ l₂ : List String) :
    isDuplicateTitle t (l₁ ++ l₂) =
      (isDuplicateTitle t l₁ || isDuplicateTitle t l₂) := by
  simp [isDuplicateTitle, List.any_append]

/-- Every survivor of `dedupAux` passed the URL and the similarity check
against the state it was admitted under; in particular against the initial
state. -/
theorem dedupAux_mem (l : List ContentItem) :
    ∀ urls titles x, x ∈ dedupAux urls titles l →
      x.url ∉ urls ∧ isDuplicateTitle x.title titles = false := by
  induction l with
  | nil => intro urls titles x hx; simp [dedupAux] at hx
  | cons item rest ih =>
    intro urls titles x hx
    rw [dedupAux] at hx
    by_cases hu : item.url ∈ urls
    · rw [if_pos hu] at hx
      exact ih urls titles x hx
    · rw [if_neg hu] at hx
      by_cases hd : isDuplicateTitle item.title titles = true
      · rw [if_pos hd] at hx
        exact ih urls titles x hx
      · rw [if_neg hd] at hx
        rcases List.mem_cons.mp hx with rfl | hx'
        · exact ⟨hu, Bool.eq_false_iff.mpr hd⟩
        · obtain ⟨h1, h2⟩ := ih _ _ x hx'
          refine ⟨fun hmem => h1 (List.mem_cons_of_mem _ hmem), ?_⟩
          rw [isDuplicateTitle_append] at h2
          exact (Bool.or_eq_false_iff.mp h2).1

/-- Pairwise guarantee of the dedup loop: any later survivor differs in URL
from any earlier one and scored at most 0.8 against its title (the ratio is
taken with the later title as the `a` argument, exactly as at the call
site). -/
theorem dedupAux_pairwise (l : List ContentItem) :
    ∀ urls titles, (dedupAux urls titles l).Pairwise fun a b =>
      a.url ≠ b.url ∧ ratioQ (lowerChars b.title) (lowerChars a.title) ≤ mkRat 4 5 := by
  induction l with
  | nil => intro urls titles; simp [dedupAux]
  | cons item rest ih =>
    intro urls titles
    rw [dedupAux]
    by_cases hu : item.url ∈ urls
    · rw [if_pos hu]; exact ih urls titles
    · rw [if_neg hu]
      by_cases hd : isDuplicateTitle item.title titles = true
      · rw [if_pos hd]; exact ih urls titles
      · rw [if_neg hd]
        refine List.Pairwise.cons (fun b hb => ?_) (ih _ _)
        obtain ⟨h1, h2⟩ := dedupAux_mem rest _ _ b hb
        refine ⟨fun he => h1 (he ▸ List.mem_cons_self _ _), ?_⟩
        rw [isDuplicateTitle_append] at h2
        have h3 := (Bool.or_eq_false_iff.mp h2).2
        simp only [isDuplicateTitle, List.any_cons, List.any_nil,
          Bool.or_false, decide_eq_false_iff_not, not_lt] at h3
        exact h3

/-- C3: in the output of `deduplicate_items` no two items share a `url`,
and no two items have title similarity above the 0.8 threshold (the
`SequenceMatcher` ratio of the case-folded titles, computed as in the
source with the later item's title as first argument, does not exceed
4/5). -/
theorem claim_C3 (items : List ContentItem) :
    (deduplicate_items items).Pairwise fun a b =>
      a.url ≠ b.url ∧ ratioQ (lowerChars b.title) (lowerChars a.title) ≤ mkRat 4 5 :=
  dedupAux_pairwise items [] []

/-- Re-running the dedup loop over its own output from the same state
changes nothing: every survivor re-passes the exact checks it passed when
admitted. -/
theorem dedupAux_idem (l : List ContentItem) :
    ∀ urls titles, dedupAux urls titles (dedupAux urls titles l) = dedupAux urls titles l := by
  induction l with
  | nil => intro urls titles; simp [dedupAux]
  | cons item rest ih =>
    intro urls titles
    rw [dedupAux]
    by_cases hu : item.url ∈ urls
    · rw [if_pos hu, ih]
    · rw [if_neg hu]
      by_cases hd : isDuplicateTitle item.title titles = true
      · rw [if_pos hd, ih]
      · rw [if_neg hd]
        conv_lhs => rw [dedupAux]
        rw [if_neg hu, if_neg hd, ih]

/-- C9: `deduplicate_items` is idempotent. -/
theorem claim_C9 (items : List ContentItem) :
    deduplicate_items (deduplicate_items items) = deduplicate_items items :=
  dedupAux_idem items [] []

/-! ## Identity preservation through the parser's store -/

theorem sameIdentity_refl (a : ContentItem) : sameIdentity a a :=
  ⟨rfl, rfl, rfl, rfl, rfl, rfl⟩

theorem sameIdentity_trans {a b c : ContentItem}
    (h1 : sameIdentity a b) (h2 : sameIdentity b c) : sameIdentity a c := by
  obtain ⟨p1, p2, p3, p4, p5, p6⟩ := h1
  obtain ⟨q1, q2, q3, q4, q5, q6⟩ := h2
  exact ⟨p1.trans q1, p2.trans q2, p3.trans q3, p4.trans q4, p5.trans q5, p6.trans q6⟩

theorem storeSame_refl (s : List ContentItem) : storeSame s s :=
  ⟨rfl, fun _ => sameIdentity_refl _⟩

theorem storeSame_trans {a b c : List ContentItem}
    (h1 : storeSame a b) (h2 : storeSame b c) : storeSame a c :=
  ⟨h1.1.trans h2.1, fun k => sameIdentity_trans (h2.2 k) (h1.2 k)⟩

/-- Overwriting one slot with an identity-equal item keeps the store
identity-equal. -/
theorem storeSame_set (store : List ContentItem) (i : Nat) (v : ContentItem)
    (h : sameIdentity v (store.getD i dummyItem)) :
    storeSame store (store.set i v) := by
  refine ⟨(List.length_set store i v).symm, fun k => ?_⟩
  by_cases hk : i = k
  · subst hk
    by_cases hi : i < store.length
    · have h1 : (store.set i v).getD i dummyItem = v := by
        rw [List.getD_eq_getElem?_getD, List.getElem?_set_self hi, Option.getD_some]
      rw [h1]
      exact h
    · have h1 : (store.set i v).getD i dummyItem = dummyItem := by
        rw [List.getD_eq_getElem?_getD,
          List.getElem?_eq_none (by simpa using not_lt.mp hi), Option.getD_none]
      have h2 : store.getD i dummyItem = dummyItem := by
        rw [List.getD_eq_getElem?_getD, List.getElem?_eq_none (not_lt.mp hi),
          Option.getD_none]
      rw [h1, h2]
      exact sameIdentity_refl _
  · have h1 : (store.set i v).getD k dummyItem = store.getD k dummyItem := by
      rw [List.getD_eq_getElem?_getD, List.getElem?_set_ne hk,
        ← List.getD_eq_getElem?_getD]
    rw [h1]
    exact sameIdentity_refl _

/-- A record update that only touches the annotation fields. -/
theorem sameIdentity_update (x : ContentItem) (s : Option String) (q : ℚ)
    (c : Option Category) :
    sameIdentity { x with summary := s, relevance_score := q, category := c } x :=
  ⟨rfl, rfl, rfl, rfl, rfl, rfl⟩

/-- The in-range index taken by the parser is a valid list position. -/
theorem ratIdx_lt (q : ℚ) (n : Nat) (h0 : 0 ≤ q) (hlt : q < (n : ℚ))
    (hden : q.den = 1) : q.num.toNat < n := by
  have hq : (q.num : ℚ) = q := (Rat.den_eq_one_iff q).mp hden
  have h2 : q.num < (n : ℤ) := by exact_mod_cast hq ▸ hlt
  have h3 : 0 ≤ q.num := Rat.num_nonneg.mpr h0
  omega

/-- An entry that raises leaves the store identity-equal (annotations
already applied may persist, but only annotation fields changed). -/
theorem processEntry_error_storeSame (store : List ContentItem) (e : JValue)
    (st : List ContentItem) (h : processEntry store e = .error st) :
    storeSame store st := by
  cases e with
  | obj f =>
    simp only [processEntry] at h
    split at h
    · injection h with h2; subst h2; exact storeSame_refl _
    · split at h
      · split at h
        · split at h
          · injection h with h2; subst h2; exact storeSame_refl _
          · split at h
            · injection h with h2; subst h2
              exact storeSame_set _ _ _ ⟨rfl, rfl, rfl, rfl, rfl, rfl⟩
            · split at h
              · injection h with h2; subst h2
                rw [List.set_set]
                exact storeSame_set _ _ _ ⟨rfl, rfl, rfl, rfl, rfl, rfl⟩
              · cases h
        · injection h with h2; subst h2; exact storeSame_refl _
      · cases h
  | null => simp only [processEntry] at h; injection h with h2; subst h2; exact storeSame_refl _
  | bool b => simp only [processEntry] at h; injection h with h2; subst h2; exact storeSame_refl _
  | num q => simp only [processEntry] at h; injection h with h2; subst h2; exact storeSame_refl _
  | str s => simp only [processEntry] at h; injection h with h2; subst h2; exact storeSame_refl _
  | arr xs => simp only [processEntry] at h; injection h with h2; subst h2; exact storeSame_refl _

/-- A completed entry leaves the store identity-equal and only records an
in-range slot. -/
theorem processEntry_ok_props (store : List ContentItem) (e : JValue)
    (st : List ContentItem) (oidx : Option Nat)
    (h : processEntry store e = .ok (st, oidx)) :
    storeSame store st ∧ ∀ i, oidx = some i → i < store.length := by
  cases e with
  | obj f =>
    simp only [processEntry] at h
    split at h
    · cases h
    · split at h
      · rename_i hrange
        split at h
        · rename_i hden
          split at h
          · cases h
          · split at h
            · cases h
            · split at h
              · cases h
              · injection h with h2
                injection h2 with h3 h4
                subst h3; subst h4
                constructor
                · rw [List.set_set, List.set_set]
                  exact storeSame_set _ _ _ ⟨rfl, rfl, rfl, rfl, rfl, rfl⟩
                · intro i hi
                  injection hi with hi2
                  subst hi2
                  exact ratIdx_lt _ _ hrange.1 hrange.2 hden
        · cases h
      · injection h with h2
        injection h2 with h3 h4
        subst h3; subst h4
        refine ⟨storeSame_refl _, ?_⟩
        intro i hi
        cases hi
  | null => cases h
  | bool b => cases h
  | num q => cases h
  | str s => cases h
  | arr xs => cases h

/-- The whole `ranked_items` loop preserves identity and only collects
in-range slots, whether it completes or raises. -/
theorem processEntries_props (entries : List JValue) :
    ∀ store : List ContentItem,
      (∀ st, processEntries store entries = .error st → storeSame store st) ∧
      (∀ st idxs, processEntries store entries = .ok (st, idxs) →
        storeSame store st ∧ ∀ i ∈ idxs, i < store.length) := by
  induction entries with
  | nil =>
    intro store
    refine ⟨fun st h => (by cases h), fun st idxs h => ?_⟩
    simp only [processEntries] at h
    injection h with h2
    injection h2 with h3 h4
    subst h3; subst h4
    exact ⟨storeSame_refl _, fun i hi => by cases hi⟩
  | cons e rest ih =>
    intro store
    cases hpe : processEntry store e with
    | error st0 =>
      constructor
      · intro st h
        simp only [processEntries, hpe] at h
        injection h with h2
        subst h2
        exact processEntry_error_storeSame store e st0 hpe
      · intro st idxs h
        simp only [processEntries, hpe] at h
        exact Except.noConfusion h
    | ok p =>
      obtain ⟨st0, oidx⟩ := p
      obtain ⟨hs0, hb0⟩ := processEntry_ok_props store e st0 oidx hpe
      cases hrest : processEntries st0 rest with
      | error st1 =>
        constructor
        · intro st h
          simp only [processEntries, hpe, hrest] at h
          injection h with h2
          subst h2
          exact storeSame_trans hs0 ((ih st0).1 st1 hrest)
        · intro st idxs h
          simp only [processEntries, hpe, hrest] at h
          exact Except.noConfusion h
      | ok p1 =>
        obtain ⟨st1, idxs0⟩ := p1
        obtain ⟨hs1, hb1⟩ := (ih st0).2 st1 idxs0 hrest
        constructor
        · intro st h
          simp only [processEntries, hpe, hrest] at h
          exact Except.noConfusion h
        · intro st idxs h
          simp only [processEntries, hpe, hrest] at h
          injection h with h2
          injection h2 with h3 h4
          subst h3; subst h4
          refine ⟨storeSame_trans hs0 hs1, fun i hi => ?_⟩
          rcases List.mem_append.mp hi with hi1 | hi2
          · cases oidx with
            | none => cases hi1
            | some j =>
              simp only [Option.toList_some, List.mem_singleton] at hi1
              subst hi1
              exact hb0 _ rfl
          · exact hs0.1 ▸ hb1 i hi2

/-! ## The fallback annotation -/

theorem sameIdentity_fallbackItem (x : ContentItem) :
    sameIdentity (fallbackItem x) x := by
  unfold fallbackItem
  dsimp only
  split <;> exact ⟨rfl, rfl, rfl, rfl, rfl, rfl⟩

theorem fallbackItem_category (x : ContentItem) :
    (fallbackItem x).category = some Category.WORKFLOW := by
  unfold fallbackItem
  dsimp only

theorem fallbackItem_summary (x : ContentItem) (hx : x.summary.getD "" = "") :
    (fallbackItem x).summary = some (fallbackSummary x.description) := by
  unfold fallbackItem
  dsimp only
  rw [if_pos hx]

/-! ## Ranking output is a subset of the input -/

/-- Whatever `_parse_response` returns — success, skip, or any caught
exception — every returned item is identity-equal to the input item at some
position. -/
theorem parse_response_subset (loads : String → Except String JValue)
    (response : String) (items : List ContentItem) :
    ∀ r ∈ (parse_response loads response items).1, ∃ x ∈ items, sameIdentity r x := by
  intro r hr
  unfold parse_response at hr
  have takeCase : ∀ st : List ContentItem, storeSame items st → r ∈ st.take 6 →
      ∃ x ∈ items, sameIdentity r x := by
    intro st hs hmem
    have hr' : r ∈ st := List.take_subset _ _ hmem
    obtain ⟨n, hn⟩ := List.mem_iff_get.mp hr'
    have hlen : n.1 < items.length := by rw [hs.1]; exact n.isLt
    refine ⟨items.getD n.1 dummyItem, ?_, ?_⟩
    · rw [List.getD_eq_getElem _ _ hlen]
      exact List.getElem_mem hlen
    · have h2 : st.getD n.1 dummyItem = r := by
        rw [List.getD_eq_getElem _ _ n.isLt, ← List.get_eq_getElem]
        exact hn
      exact h2 ▸ hs.2 n.1
  cases hld : loads (pyStrip (stripFences response)) with
  | error e =>
    rw [hld] at hr
    exact takeCase items (storeSame_refl items) hr
  | ok data =>
    rw [hld] at hr
    cases data with
    | obj fields =>
      dsimp only at hr
      cases hit : iterEntries ((fields.lookup "ranked_items").getD (.arr [])) with
      | none =>
        rw [hit] at hr
        exact takeCase items (storeSame_refl items) hr
      | some entries =>
        rw [hit] at hr
        dsimp only at hr
        cases hpe : processEntries items entries with
        | error st =>
          rw [hpe] at hr
          exact takeCase st ((processEntries_props entries items).1 st hpe) hr
        | ok p =>
          obtain ⟨st, idxs⟩ := p
          rw [hpe] at hr
          dsimp only at hr
          obtain ⟨hs, hb⟩ := (processEntries_props entries items).2 st idxs hpe
          obtain ⟨i, hi, hrei⟩ := List.mem_map.mp hr
          have hlt : i < items.length := hb i hi
          refine ⟨items.getD i dummyItem, ?_, ?_⟩
          · rw [List.getD_eq_getElem _ _ hlt]
            exact List.getElem_mem hlt
          · exact hrei ▸ hs.2 i
    | null => exact takeCase items (storeSame_refl items) hr
    | bool b => exact takeCase items (storeSame_refl items) hr
    | num q => exact takeCase items (storeSame_refl items) hr
    | str s => exact takeCase items (storeSame_refl items) hr
    | arr xs => exact takeCase items (storeSame_refl items) hr

/-- C5: on the success path and on every fallback path alike,
`analyze_and_rank` returns only (annotated copies of) items of its input —
it never fabricates an item. -/
theorem claim_C5 (loads : String → Except String JValue)
    (callResult : Except String String) (items : List ContentItem) :
    ∀ r ∈ (analyze_and_rank loads callResult items).1,
      ∃ x ∈ items, sameIdentity r x := by
  intro r hr
  cases items with
  | nil => simp [analyze_and_rank] at hr
  | cons a l =>
    cases callResult with
    | ok response =>
      have he : analyze_and_rank loads (.ok response) (a :: l) =
          ((parse_response loads response (a :: l)).1.take 6,
            (parse_response loads response (a :: l)).2) := rfl
      rw [he] at hr
      exact parse_response_subset loads response (a :: l) r (List.take_subset _ _ hr)
    | error e =>
      have he : analyze_and_rank loads (.error e) (a :: l) =
          (((a :: l).take 6).map fallbackItem,
            .arr [.str "Check the full list for details."]) := rfl
      rw [he] at hr
      obtain ⟨x, hx, hfx⟩ := List.mem_map.mp hr
      exact ⟨x, List.take_subset _ _ hx, hfx ▸ sameIdentity_fallbackItem x⟩

set_option maxRecDepth 8000 in
/-- Closed instance of C5 on the call-failure path. -/
theorem claim_C5_witness :
    ∃ x ∈ [sItemA], sameIdentity
      ((analyze_and_rank loadsFail (Except.error "API error 500") [sItemA]).1.getD 0
        dummyItem) x :=
  claim_C5 loadsFail (Except.error "API error 500") [sItemA] _ (by decide)

/-! ## The call-failure fallback (C1) -/

/-- C1: when the completion call fails, `analyze_and_rank` returns the
first `min 6 n` input items in order, every one categorized WORKFLOW, a
falsy summary filled from the description (or the fixed placeholder), and
the single-element fallback TL;DR.  No exception escapes: the embedding is
a total function of the failure. -/
theorem claim_C1 (loads : String → Except String JValue) (err : String)
    (items : List ContentItem) (h : items ≠ []) :
    (analyze_and_rank loads (.error err) items).1.length = min 6 items.length ∧
    (analyze_and_rank loads (.error err) items).2 =
      .arr [.str "Check the full list for details."] ∧
    ∀ i (hi : i < (analyze_and_rank loads (.error err) items).1.length)
      (hj : i < items.length),
      ((analyze_and_rank loads (.error err) items).1.get ⟨i, hi⟩).category =
        some Category.WORKFLOW ∧
      sameIdentity ((analyze_and_rank loads (.error err) items).1.get ⟨i, hi⟩)
        (items.get ⟨i, hj⟩) ∧
      ((items.get ⟨i, hj⟩).summary.getD "" = "" →
        ((analyze_and_rank loads (.error err) items).1.get ⟨i, hi⟩).summary =
          some (fallbackSummary (items.get ⟨i, hj⟩).description)) := by
  cases items with
  | nil => exact absurd rfl h
  | cons a l =>
    have he : analyze_and_rank loads (.error err) (a :: l) =
        (((a :: l).take 6).map fallbackItem,
          .arr [.str "Check the full list for details."]) := rfl
    have h1 : (analyze_and_rank loads (.error err) (a :: l)).1 =
        ((a :: l).take 6).map fallbackItem := congrArg Prod.fst he
    refine ⟨?_, congrArg Prod.snd he, ?_⟩
    · rw [h1]
      simp only [List.length_map, List.length_take]
    · intro i hi hj
      have hg : (analyze_and_rank loads (.error err) (a :: l)).1.get ⟨i, hi⟩ =
          fallbackItem ((a :: l).get ⟨i, hj⟩) := by
        rw [List.get_eq_getElem, List.get_eq_getElem]
        simp only [h1, List.getElem_map, List.getElem_take]
      rw [hg]
      exact ⟨fallbackItem_category _, sameIdentity_fallbackItem _,
        fun hs => fallbackItem_summary _ hs⟩

/-- Closed instance of C1 at a two-item input. -/
theorem claim_C1_witness :
    (analyze_and_rank loadsFail (Except.error "timeout") [sItemA, sItemC]).1.length =
        min 6 2 ∧
    ((analyze_and_rank loadsFail (Except.error "timeout") [sItemA, sItemC]).1.get
        ⟨0, by decide⟩).category = some Category.WORKFLOW := by
  have h := claim_C1 loadsFail "timeout" [sItemA, sItemC] (by decide)
  exact ⟨h.1, (h.2.2 0 (by decide) (by decide)).1⟩

/-! ## Parse failure behaviour (C2) -/

/-- C2 as stated is false: on unparseable input with a non-empty item list
the parser returns the first items, not an empty result (here one item, not
zero). -/
theorem claim_C2_counterexample :
    (parse_response loadsFail "this is not JSON" [sItemA]).1 = [sItemA] ∧
    (parse_response loadsFail "this is not JSON" [sItemA]).1 ≠ [] := by
  exact ⟨by decide, by decide⟩

/-- C2 amended: when `json.loads` fails, `_parse_response` catches the
error inside its own boundary (the embedding is total — nothing
propagates), but it returns the first six input items unannotated with an
empty `tldr`, not an empty result, and no failure signal is handed to the
orchestrator. -/
theorem claim_C2_amended (loads : String → Except String JValue)
    (response : String) (items : List ContentItem) (e : String)
    (h : loads (pyStrip (stripFences response)) = .error e) :
    parse_response loads response items = (items.take 6, .arr []) := by
  unfold parse_response
  rw [h]

/-- Closed instance of the amended C2. -/
theorem claim_C2_amended_witness :
    parse_response loadsFail "this is not JSON" [sItemA, sItemB] =
      ([sItemA, sItemB].take 6, .arr []) :=
  claim_C2_amended loadsFail "this is not JSON" [sItemA, sItemB] "Expecting value" rfl

/-! ## Well-formed entries reduce to the declarative annotation -/

theorem entryWF_den (f : List (String × JValue)) (q : ℚ)
    (hwf : entryWF (.obj f) = true) (hq : idxVal f = some q) : q.den = 1 := by
  simp only [entryWF, hq, Bool.and_eq_true] at hwf
  exact beq_iff_eq.mp hwf.1

theorem entryWF_parts (f : List (String × JValue))
    (hwf : entryWF (.obj f) = true) :
    wfSummaryB f = true ∧ wfScoreB f = true ∧ wfCatB f = true := by
  simp only [entryWF, Bool.and_eq_true] at hwf
  exact ⟨hwf.2.1, hwf.2.2⟩

theorem summaryVal_wf (f : List (String × JValue)) (item : ContentItem)
    (h : wfSummaryB f = true) :
    summaryVal f item = .ok (match f.lookup "summary" with
      | none => item.description
      | some (.str s) => some s
      | some .null => none
      | some _ => item.summary) := by
  cases hl : f.lookup "summary" with
  | none => simp only [summaryVal, hl]
  | some v =>
    cases v with
    | str s => simp only [summaryVal, hl]
    | null => simp only [summaryVal, hl]
    | bool b => simp only [wfSummaryB, hl] at h; exact Bool.noConfusion h
    | num q => simp only [wfSummaryB, hl] at h; exact Bool.noConfusion h
    | arr xs => simp only [wfSummaryB, hl] at h; exact Bool.noConfusion h
    | obj g => simp only [wfSummaryB, hl] at h; exact Bool.noConfusion h

theorem scoreVal_wf (f : List (String × JValue)) (d : ℚ) (h : wfScoreB f = true) :
    scoreVal f = .ok (match f.lookup "relevance_score" with
      | none => mkRat 1 2
      | some v => (toNumber v).getD d) := by
  cases hl : f.lookup "relevance_score" with
  | none => simp only [scoreVal, hl]
  | some v =>
    simp only [wfScoreB, hl, Option.isSome_iff_exists] at h
    obtain ⟨q, hn⟩ := h
    simp only [scoreVal, hl, hn, Option.getD_some]

theorem catVal_wf (f : List (String × JValue)) (h : wfCatB f = true) :
    catVal f = .ok (match f.lookup "category" with
      | none => Category.WORKFLOW
      | some (.str s) => categoryMap (lowerStr s)
      | some _ => Category.WORKFLOW) := by
  cases hl : f.lookup "category" with
  | none => simp only [catVal, hl]
  | some v =>
    cases v with
    | str s => simp only [catVal, hl]
    | null => simp only [wfCatB, hl] at h; exact Bool.noConfusion h
    | bool b => simp only [wfCatB, hl] at h; exact Bool.noConfusion h
    | num q => simp only [wfCatB, hl] at h; exact Bool.noConfusion h
    | arr xs => simp only [wfCatB, hl] at h; exact Bool.noConfusion h
    | obj g => simp only [wfCatB, hl] at h; exact Bool.noConfusion h

/-- A well-formed entry whose index is out of range is silently skipped. -/
theorem processEntry_wf_skip (store : List ContentItem)
    (f : List (String × JValue)) (q : ℚ)
    (hq : idxVal f = some q)
    (hout : ¬(0 ≤ q ∧ q < (store.length : ℚ))) :
    processEntry store (.obj f) = .ok (store, none) := by
  unfold idxVal at hq
  cases hb : (f.lookup "index").bind toNumber with
  | none => rw [hb] at hq; cases hq
  | some q0 =>
    rw [hb] at hq
    simp only [Option.map_some', Option.some.injEq] at hq
    subst hq
    simp only [processEntry, hb]
    rw [if_neg hout]

/-- A well-formed entry with an in-range index performs exactly the
declarative annotation of its slot. -/
theorem processEntry_wf_hit (store : List ContentItem)
    (f : List (String × JValue)) (q : ℚ)
    (hwf : entryWF (.obj f) = true) (hq : idxVal f = some q)
    (h0 : 0 ≤ q) (hlt : q < (store.length : ℚ)) :
    processEntry store (.obj f) =
      .ok (store.set q.num.toNat
            (specAnnotate (store.getD q.num.toNat dummyItem) f),
          some q.num.toNat) := by
  have hden := entryWF_den f q hwf hq
  obtain ⟨hsum, hsc, hcat⟩ := entryWF_parts f hwf
  unfold idxVal at hq
  cases hb : (f.lookup "index").bind toNumber with
  | none => rw [hb] at hq; cases hq
  | some q0 =>
    rw [hb] at hq
    simp only [Option.map_some', Option.some.injEq] at hq
    subst hq
    simp only [processEntry, hb]
    rw [if_pos ⟨h0, hlt⟩, if_pos hden]
    rw [summaryVal_wf f (store.getD (mkRat (q0.num - q0.den) q0.den).num.toNat dummyItem) hsum,
      scoreVal_wf f (store.getD (mkRat (q0.num - q0.den) q0.den).num.toNat dummyItem).relevance_score hsc,
      catVal_wf f hcat]
    dsimp only
    rw [List.set_set, List.set_set]
    rfl

/-- With pairwise-distinct first components, `find?` on the first
component returns the member itself. -/
theorem find?_fst_unique {α : Type} (l : List (Nat × α)) (p : Nat × α)
    (hnd : (l.map Prod.fst).Nodup) (hp : p ∈ l) :
    l.find? (fun x => x.1 == p.1) = some p := by
  induction l with
  | nil => cases hp
  | cons q rest ih =>
    rw [List.map_cons, List.nodup_cons] at hnd
    rcases List.mem_cons.mp hp with rfl | hp'
    · exact @List.find?_cons_of_pos _ (fun x => x.1 == p.1) p rest (by simp)
    · have hne : ¬((fun x : Nat × α => x.1 == p.1) q) = true := by
        intro he
        exact hnd.1 ((beq_iff_eq.mp he) ▸ List.mem_map_of_mem Prod.fst hp')
      rw [@List.find?_cons_of_neg _ (fun x => x.1 == p.1) q rest hne]
      exact ih hnd.2 hp'

/-- The `ranked_items` loop under well-formed entries with pairwise
distinct in-range indices: it completes, collects the slots in entry
order, and the final store holds each slot's declarative annotation of the
original item. -/
theorem processEntries_wf (entries : List JValue) :
    ∀ store : List ContentItem,
      (∀ e ∈ entries, entryWF e = true) →
      ((entries.filterMap (entrySlot store.length)).map Prod.fst).Nodup →
      ∃ stF,
        processEntries store entries =
          .ok (stF, (entries.filterMap (entrySlot store.length)).map Prod.fst) ∧
        stF.length = store.length ∧
        ∀ j, stF.getD j dummyItem =
          match (entries.filterMap (entrySlot store.length)).find?
              (fun p => p.1 == j) with
          | some p => specAnnotate (store.getD j dummyItem) p.2
          | none => store.getD j dummyItem := by
  induction entries with
  | nil =>
    intro store hwf hnd
    exact ⟨store, rfl, rfl, fun j => by simp [List.find?]⟩
  | cons e rest ih =>
    intro store hwf hnd
    have hwfe : entryWF e = true := hwf e (List.mem_cons_self e rest)
    cases e with
    | obj f =>
      cases hb : idxVal f with
      | none => simp only [entryWF, hb, Bool.false_and] at hwfe; exact Bool.noConfusion hwfe
      | some q =>
        have hden := entryWF_den f q hwfe hb
        by_cases hr : 0 ≤ q ∧ q < (store.length : ℚ)
        · -- in-range entry: annotate slot i, then continue on the new store
          have hslot : entrySlot store.length (.obj f) = some (q.num.toNat, f) := by
            simp only [entrySlot, hb]
            rw [if_pos ⟨hr.1, hr.2, hden⟩]
          have hilt : q.num.toNat < store.length := ratIdx_lt q _ hr.1 hr.2 hden
          set i := q.num.toNat
          set A := specAnnotate (store.getD i dummyItem) f
          have hpe := processEntry_wf_hit store f q hwfe hb hr.1 hr.2
          have hlen1 : (store.set i A).length = store.length := List.length_set _ _ _
          have hnd' : (((i, f) :: rest.filterMap (entrySlot store.length)).map
              Prod.fst).Nodup := by
            rw [List.filterMap_cons, hslot] at hnd
            exact hnd
          rw [List.map_cons] at hnd'
          have hnotin := (List.nodup_cons.mp hnd').1
          have hndrest := (List.nodup_cons.mp hnd').2
          obtain ⟨stF, hrun, hlenF, heq⟩ := ih (store.set i A)
            (fun e he => hwf e (List.mem_cons_of_mem _ he))
            (by rw [hlen1]; exact hndrest)
          rw [hlen1] at hrun hlenF heq
          refine ⟨stF, ?_, hlenF, ?_⟩
          · rw [List.filterMap_cons, hslot]
            simp only [processEntries, hpe]
            rw [hrun]
            rfl
          · intro j
            rw [List.filterMap_cons, hslot]
            by_cases hj : i = j
            · subst hj
              rw [@List.find?_cons_of_pos _ (fun p => p.1 == i) (i, f)
                (rest.filterMap (entrySlot store.length)) (by simp)]
              have hnone : (rest.filterMap (entrySlot store.length)).find?
                  (fun p => p.1 == i) = none := by
                rw [List.find?_eq_none]
                intro x hx hbeq
                have hmem : x.1 ∈ (rest.filterMap (entrySlot store.length)).map
                    Prod.fst := List.mem_map_of_mem Prod.fst hx
                rw [beq_iff_eq.mp hbeq] at hmem
                exact hnotin hmem
              rw [heq i, hnone]
              rw [List.getD_eq_getElem?_getD, List.getElem?_set_self hilt,
                Option.getD_some]
            · rw [@List.find?_cons_of_neg _ (fun p => p.1 == j) (i, f)
                (rest.filterMap (entrySlot store.length)) (by simpa using hj)]
              have hsetne : (store.set i A).getD j dummyItem =
                  store.getD j dummyItem := by
                rw [List.getD_eq_getElem?_getD, List.getElem?_set_ne hj,
                  ← List.getD_eq_getElem?_getD]
              rw [heq j, hsetne]
        · -- out-of-range entry: skipped, store unchanged
          have hslot : entrySlot store.length (.obj f) = none := by
            simp only [entrySlot, hb]
            rw [if_neg (fun hc => hr ⟨hc.1, hc.2.1⟩)]
          have hpe := processEntry_wf_skip store f q hb hr
          rw [List.filterMap_cons, hslot] at hnd ⊢
          obtain ⟨stF, hrun, hlenF, heq⟩ := ih store
            (fun e he => hwf e (List.mem_cons_of_mem _ he)) hnd
          refine ⟨stF, ?_, hlenF, heq⟩
          simp only [processEntries, hpe]
          rw [hrun]
          rfl
    | null => simp only [entryWF] at hwfe; exact Bool.noConfusion hwfe
    | bool b => simp only [entryWF] at hwfe; exact Bool.noConfusion hwfe
    | num q => simp only [entryWF] at hwfe; exact Bool.noConfusion hwfe
    | str s => simp only [entryWF] at hwfe; exact Bool.noConfusion hwfe
    | arr xs => simp only [entryWF] at hwfe; exact Bool.noConfusion hwfe

/-- C4: on a well-formed response whose in-range indices are pairwise
distinct, `_parse_response` returns, in the model's listing order with no
re-sorting, exactly the items addressed by in-range indices (1-based
converted to 0-based, out-of-range entries silently dropped), each
annotated per `specAnnotate`: summary from the entry or the original
description, score from the entry or 0.5, category lowercased and mapped
with unrecognized strings becoming WORKFLOW. -/
theorem claim_C4 (loads : String → Except String JValue) (response : String)
    (items : List ContentItem) (fields : List (String × JValue))
    (entries : List JValue)
    (h1 : loads (pyStrip (stripFences response)) = .ok (.obj fields))
    (h2 : fields.lookup "ranked_items" = some (.arr entries))
    (h3 : ∀ e ∈ entries, entryWF e = true)
    (h4 : ((entries.filterMap (entrySlot items.length)).map Prod.fst).Nodup) :
    (parse_response loads response items).1 =
      entries.filterMap fun e => (entrySlot items.length e).map
        fun p => specAnnotate (items.getD p.1 dummyItem) p.2 := by
  obtain ⟨stF, hrun, hlenF, heq⟩ := processEntries_wf entries items h3 h4
  simp only [parse_response, h1, h2, Option.getD_some, iterEntries, hrun]
  rw [List.map_map, ← List.map_filterMap]
  apply List.map_congr_left
  intro p hp
  have hfind := find?_fst_unique _ p h4 hp
  show stF.getD p.1 dummyItem = specAnnotate (items.getD p.1 dummyItem) p.2
  rw [heq p.1, hfind]

set_option maxRecDepth 8000 in
/-- Closed instance of C4 at the spec §8 scenario (3 items, one entry for
index 2). -/
theorem claim_C4_witness :
    (parse_response (loadsConst (.obj fieldsA)) "resp" [sItemA, sItemB, sItemC]).1 =
      [JValue.obj entryA].filterMap fun e =>
        (entrySlot [sItemA, sItemB, sItemC].length e).map
          fun p => specAnnotate ([sItemA, sItemB, sItemC].getD p.1 dummyItem) p.2 :=
  claim_C4 (loadsConst (.obj fieldsA)) "resp" [sItemA, sItemB, sItemC] fieldsA
    [JValue.obj entryA] rfl rfl
    (by intro e he; simp only [List.mem_singleton] at he; subst he; rfl)
    (by decide)

/-- Shared helper: a well-formed single-entry response with an in-range
index annotates exactly that item and returns it alone. -/
theorem parse_single_entry (loads : String → Except String JValue)
    (response : String) (items : List ContentItem)
    (fields f : List (String × JValue)) (q : ℚ)
    (h1 : loads (pyStrip (stripFences response)) = .ok (.obj fields))
    (h2 : fields.lookup "ranked_items" = some (.arr [.obj f]))
    (h3 : entryWF (.obj f) = true)
    (hq : idxVal f = some q) (h0 : 0 ≤ q) (hlt : q < (items.length : ℚ)) :
    (parse_response loads response items).1 =
      [specAnnotate (items.getD q.num.toNat dummyItem) f] := by
  have hden := entryWF_den f q h3 hq
  have hilt : q.num.toNat < items.length := ratIdx_lt q _ h0 hlt hden
  have hpe := processEntry_wf_hit items f q h3 hq h0 hlt
  simp only [parse_response, h1, h2, Option.getD_some, iterEntries]
  simp only [processEntries, hpe]
  simp only [Option.toList_some, List.append_nil, List.map_cons, List.map_nil]
  rw [List.getD_eq_getElem?_getD, List.getElem?_set_self hilt, Option.getD_some]

/-- C6 as stated is false: on an entry with no `category` field the parser
itself sets the item's category to WORKFLOW — it is not left unset. -/
theorem claim_C6_counterexample :
    ((parse_response (loadsConst (.obj fieldsNoCat)) "x" [sItemA]).1.getD 0
        dummyItem).category = some Category.WORKFLOW ∧
    ((parse_response (loadsConst (.obj fieldsNoCat)) "x" [sItemA]).1.getD 0
        dummyItem).category ≠ none := by
  exact ⟨by decide, by decide⟩

/-- C6 amended: when a well-formed entry omits `category`, the core parser
assigns WORKFLOW to the item right away (the `"workflow"` default string is
applied inside `_parse_response`, not at presentation time). -/
theorem claim_C6_amended (loads : String → Except String JValue)
    (response : String) (items : List ContentItem)
    (fields f : List (String × JValue)) (q : ℚ)
    (h1 : loads (pyStrip (stripFences response)) = .ok (.obj fields))
    (h2 : fields.lookup "ranked_items" = some (.arr [.obj f]))
    (h3 : entryWF (.obj f) = true)
    (hq : idxVal f = some q) (h0 : 0 ≤ q) (hlt : q < (items.length : ℚ))
    (hcat : f.lookup "category" = none) :
    (parse_response loads response items).1 =
      [specAnnotate (items.getD q.num.toNat dummyItem) f] ∧
    (specAnnotate (items.getD q.num.toNat dummyItem) f).category =
      some Category.WORKFLOW := by
  refine ⟨parse_single_entry loads response items fields f q h1 h2 h3 hq h0 hlt, ?_⟩
  simp only [specAnnotate, hcat]

set_option maxRecDepth 8000 in
/-- C7 as stated is false: the prompt serializes only the first 20 items,
but the parser bounds indices by the full input length, so index 21 against
21 items annotates and returns the 21st item. -/
theorem claim_C7_counterexample :
    (parse_response (loadsConst (.obj fieldsLate)) "x" items21).1.length = 1 ∧
    ((parse_response (loadsConst (.obj fieldsLate)) "x" items21).1.getD 0
        dummyItem).url = "https://c/3" ∧
    ((parse_response (loadsConst (.obj fieldsLate)) "x" items21).1.getD 0
        dummyItem).summary = some "late" :=
  ⟨by decide, by decide, by decide⟩

/-- C7 amended: `_prepare_content` serializes only the first 20 items, but
`_parse_response` range-checks a 1-based index against the full input
length, so a well-formed entry whose 0-based index `q` satisfies
`20 ≤ q < len(items)` does cause the item past the prompt cap to be
annotated and returned. -/
theorem claim_C7_amended :
    (∀ items : List ContentItem,
      prepare_content items = prepare_content (items.take 20)) ∧
    ∀ (loads : String → Except String JValue) (response : String)
      (items : List ContentItem) (fields f : List (String × JValue)) (q : ℚ),
      loads (pyStrip (stripFences response)) = .ok (.obj fields) →
      fields.lookup "ranked_items" = some (.arr [.obj f]) →
      entryWF (.obj f) = true →
      idxVal f = some q → (20 : ℚ) ≤ q → q < (items.length : ℚ) →
      (parse_response loads response items).1 =
        [specAnnotate (items.getD q.num.toNat dummyItem) f] := by
  constructor
  · intro items
    unfold prepare_content
    rw [List.take_take, inf_idem]
  · intro loads response items fields f q h1 h2 h3 hq h20 hlt
    exact parse_single_entry loads response items fields f q h1 h2 h3 hq
      (le_trans (by norm_num) h20) hlt

set_option maxRecDepth 8000 in
/-- Closed instance of the amended C7 at 21 items and index 21. -/
theorem claim_C7_amended_witness :
    prepare_content items21 = prepare_content (items21.take 20) ∧
    (parse_response (loadsConst (.obj fieldsLate)) "x" items21).1 =
      [specAnnotate (items21.getD (mkRat 20 1).num.toNat dummyItem) entryLate] :=
  ⟨claim_C7_amended.1 items21,
   claim_C7_amended.2 (loadsConst (.obj fieldsLate)) "x" items21 fieldsLate
     entryLate (mkRat 20 1) rfl rfl rfl rfl (by decide) (by decide)⟩

set_option maxRecDepth 8000 in
/-- C8 as stated is false: when the second entry raises (here a non-object,
whose `ranked["index"]` subscription is a `TypeError`), the annotation the
first entry already applied in place is retained in the returned fallback
list — item state is not rolled back. -/
theorem claim_C8_counterexample :
    (parse_response (loadsConst (.obj fieldsPartial)) "x" [sItemA, sItemC]).1 =
      [{ sItemA with
          summary := some "S1", relevance_score := mkRat 1 2,
          category := some Category.LEADS }, sItemC] ∧
    sItemA.summary = none :=
  ⟨by decide, by decide⟩

/-- C8 amended: annotations are applied to the shared items as entries are
processed; when a later entry raises, `_parse_response` returns the first
six items of the store as already mutated — the earlier entry's summary,
score and category assignments persist (and a duplicated index writes the
same item again, so a field may be written more than once per run). -/
theorem claim_C8_amended (loads : String → Except String JValue)
    (response : String) (items : List ContentItem)
    (fields f : List (String × JValue)) (q : ℚ)
    (h1 : loads (pyStrip (stripFences response)) = .ok (.obj fields))
    (h2 : fields.lookup "ranked_items" = some (.arr [.obj f, .null]))
    (h3 : entryWF (.obj f) = true)
    (hq : idxVal f = some q) (h0 : 0 ≤ q) (hlt : q < (items.length : ℚ)) :
    (parse_response loads response items).1 =
      (items.set q.num.toNat
        (specAnnotate (items.getD q.num.toNat dummyItem) f)).take 6 ∧
    (parse_response loads response items).2 = .arr [] := by
  have hpe := processEntry_wf_hit items f q h3 hq h0 hlt
  constructor <;>
  · simp only [parse_response, h1, h2, Option.getD_some, iterEntries]
    simp only [processEntries, hpe]
    simp only [processEntry]

set_option maxRecDepth 8000 in
/-- Closed instance of the amended C8. -/
theorem claim_C8_amended_witness :
    (parse_response (loadsConst (.obj fieldsPartial)) "x" [sItemA, sItemC]).1 =
      ([sItemA, sItemC].set (mkRat 0 1).num.toNat
        (specAnnotate ([sItemA, sItemC].getD (mkRat 0 1).num.toNat dummyItem)
          [("index", JValue.num 1), ("summary", JValue.str "S1"),
           ("category", JValue.str "leads")])).take 6 ∧
    (parse_response (loadsConst (.obj fieldsPartial)) "x" [sItemA, sItemC]).2 =
      .arr [] :=
  claim_C8_amended (loadsConst (.obj fieldsPartial)) "x" [sItemA, sItemC]
    fieldsPartial
    [("index", JValue.num 1), ("summary", JValue.str "S1"),
     ("category", JValue.str "leads")]
    (mkRat 0 1) rfl rfl rfl rfl (by decide) (by decide)

/-- Shared helper: two well-formed entries with the same in-range index.
The parser appends the same (aliased) item twice; both returned occurrences
show the state after the second write, i.e. last occurrence wins. -/
theorem parse_dup_entry (loads : String → Except String JValue)
    (response : String) (items : List ContentItem)
    (fields f₁ f₂ : List (String × JValue)) (q : ℚ)
    (h1 : loads (pyStrip (stripFences response)) = .ok (.obj fields))
    (h2 : fields.lookup "ranked_items" = some (.arr [.obj f₁, .obj f₂]))
    (h3 : entryWF (.obj f₁) = true) (h4 : entryWF (.obj f₂) = true)
    (hq1 : idxVal f₁ = some q) (hq2 : idxVal f₂ = some q)
    (h0 : 0 ≤ q) (hlt : q < (items.length : ℚ)) :
    (parse_response loads response items).1 =
      [specAnnotate (specAnnotate (items.getD q.num.toNat dummyItem) f₁) f₂,
       specAnnotate (specAnnotate (items.getD q.num.toNat dummyItem) f₁) f₂] := by
  have hden := entryWF_den f₁ q h3 hq1
  have hilt : q.num.toNat < items.length := ratIdx_lt q _ h0 hlt hden
  have hpe1 := processEntry_wf_hit items f₁ q h3 hq1 h0 hlt
  have hlt1 : q < (((items.set q.num.toNat
      (specAnnotate (items.getD q.num.toNat dummyItem) f₁)).length : Nat) : ℚ) := by
    rw [List.length_set]; exact hlt
  have hpe2 := processEntry_wf_hit
    (items.set q.num.toNat (specAnnotate (items.getD q.num.toNat dummyItem) f₁))
    f₂ q h4 hq2 h0 hlt1
  have hgd : (items.set q.num.toNat
      (specAnnotate (items.getD q.num.toNat dummyItem) f₁)).getD q.num.toNat
        dummyItem = specAnnotate (items.getD q.num.toNat dummyItem) f₁ := by
    rw [List.getD_eq_getElem?_getD, List.getElem?_set_self hilt, Option.getD_some]
  rw [hgd] at hpe2
  simp only [parse_response, h1, h2, Option.getD_some, iterEntries]
  simp only [processEntries, hpe1, hpe2]
  simp only [Option.toList_some, List.append_nil, List.cons_append,
    List.nil_append, List.map_cons, List.map_nil]
  rw [List.set_set]
  rw [List.getD_eq_getElem?_getD, List.getElem?_set_self hilt, Option.getD_some]

/-- C10: a `ranked_items` list naming the same in-range index twice makes
`_parse_response` append the same original item once per occurrence, and —
because both list slots alias the one mutated object — both returned
occurrences (and hence the ≤6 items `analyze_and_rank` returns) carry the
values written by the last occurrence processed. -/
theorem claim_C10 (loads : String → Except String JValue) (response : String)
    (items : List ContentItem) (fields f₁ f₂ : List (String × JValue)) (q : ℚ)
    (h1 : loads (pyStrip (stripFences response)) = .ok (.obj fields))
    (h2 : fields.lookup "ranked_items" = some (.arr [.obj f₁, .obj f₂]))
    (h3 : entryWF (.obj f₁) = true) (h4 : entryWF (.obj f₂) = true)
    (hq1 : idxVal f₁ = some q) (hq2 : idxVal f₂ = some q)
    (h0 : 0 ≤ q) (hlt : q < (items.length : ℚ)) :
    (analyze_and_rank loads (.ok response) items).1 =
      [specAnnotate (specAnnotate (items.getD q.num.toNat dummyItem) f₁) f₂,
       specAnnotate (specAnnotate (items.getD q.num.toNat dummyItem) f₁) f₂] ∧
    (∀ s, f₂.lookup "summary" = some (.str s) →
      (specAnnotate (specAnnotate (items.getD q.num.toNat dummyItem) f₁)
        f₂).summary = some s) ∧
    (∀ s, f₂.lookup "category" = some (.str s) →
      (specAnnotate (specAnnotate (items.getD q.num.toNat dummyItem) f₁)
        f₂).category = some (categoryMap (lowerStr s))) ∧
    ∀ v, f₂.lookup "relevance_score" = some v →
      (specAnnotate (specAnnotate (items.getD q.num.toNat dummyItem) f₁)
        f₂).relevance_score = (toNumber v).getD
          (specAnnotate (items.getD q.num.toNat dummyItem) f₁).relevance_score := by
  refine ⟨?_, ?_, ?_, ?_⟩
  · cases items with
    | nil =>
      exfalso
      simp only [List.length_nil, Nat.cast_zero] at hlt
      exact absurd (lt_of_le_of_lt h0 hlt) (lt_irrefl 0)
    | cons a l =>
      have hparse := parse_dup_entry loads response (a :: l) fields f₁ f₂ q
        h1 h2 h3 h4 hq1 hq2 h0 hlt
      have he : analyze_and_rank loads (.ok response) (a :: l) =
          ((parse_response loads response (a :: l)).1.take 6,
            (parse_response loads response (a :: l)).2) := rfl
      rw [congrArg Prod.fst he]
      dsimp only
      rw [hparse]
      rfl
  · intro s hs
    simp only [specAnnotate, hs]
  · intro s hs
    simp only [specAnnotate, hs]
  · intro v hv
    simp only [specAnnotate, hv]

set_option maxRecDepth 8000 in
/-- Closed instance of C10: the same item is returned twice with the second
entry's values. -/
theorem claim_C10_witness :
    (analyze_and_rank (loadsConst (.obj fieldsDup)) (.ok "resp")
        [sItemA, sItemC]).1 =
      [specAnnotate (specAnnotate ([sItemA, sItemC].getD (mkRat 0 1).num.toNat
          dummyItem) entryDup1) entryDup2,
       specAnnotate (specAnnotate ([sItemA, sItemC].getD (mkRat 0 1).num.toNat
          dummyItem) entryDup1) entryDup2] :=
  (claim_C10 (loadsConst (.obj fieldsDup)) "resp" [sItemA, sItemC] fieldsDup
    entryDup1 entryDup2 (mkRat 0 1) rfl rfl rfl rfl rfl rfl (by decide)
    (by decide)).1

/-- Closed instance of the amended C6. -/
theorem claim_C6_amended_witness :
    (parse_response (loadsConst (.obj fieldsNoCat)) "x" [sItemA]).1 =
      [specAnnotate ([sItemA].getD (mkRat 0 1).num.toNat dummyItem)
        [("index", JValue.num 1)]] ∧
    (specAnnotate ([sItemA].getD (mkRat 0 1).num.toNat dummyItem)
        [("index", JValue.num 1)]).category = some Category.WORKFLOW :=
  claim_C6_amended (loadsConst (.obj fieldsNoCat)) "x" [sItemA] fieldsNoCat
    [("index", JValue.num 1)] (mkRat 0 1) rfl rfl rfl rfl (by decide) (by decide)
    rfl

end MortgageNews
